import Mathlib

/-!
Verification of the SmartSpend transaction normalization and insights
aggregation engine (backend server, routes `/api/upload-csv` and
`/api/insights`, and the helper `computeInsights`).

Modelling conventions for the JavaScript source:
* JavaScript string-valued record fields become `Option String`; `none`
  models an absent key (`undefined`), `some ""` models a key bound to the
  empty string.  JavaScript truthiness on such a value is `isSome` and
  nonempty.
* Numeric amounts become `Option ℚ`: `some q` models a value whose
  `Number(...)` coercion is the finite number `q`; `none` models a value
  (absent, `null`, or non-numeric) whose coercion is `NaN`.  The source
  applies `Number(t.amount) || 0`, modelled by `Option.getD 0` (both `NaN`
  and `0` map to `0`).
* The `category` field of a record posted to `/api/insights` may be a
  string, an ordered list of strings, or absent, modelled by `CatVal`.
* JavaScript objects used as string-keyed maps become association lists in
  insertion order; `Object.entries` enumeration order (array-index-like
  keys first, in ascending numeric order, then the remaining keys in
  insertion order) is modelled by `jsObjectEntries`.
* `Array.prototype.sort` with comparator `(a, b) => b[1] - a[1]` is a
  stable sort placing larger totals first, modelled by
  `List.insertionSort byTotalDesc` (insertion sort is stable and agrees
  with every stable sort for a total preorder).
-/

namespace SmartSpend

/-- JavaScript `a || b` on two possibly-absent string values: returns `a`
when `a` is truthy (present and nonempty), otherwise `b`. -/
def jsOrStr (a b : Option String) : Option String :=
  match a with
  | some s => if s = "" then b else some s
  | none => b

/-- Resolution of an ordered alias chain `f1 || f2 || ... || dflt` ending in
a truthy string literal default, as in the upload-csv route. -/
def resolveAlias : List (Option String) → String → String
  | [], d => d
  | none :: fs, d => resolveAlias fs d
  | some s :: fs, d => if s = "" then resolveAlias fs d else s

/-- Resolution of an ordered alias chain `f1 || f2 || ... || fb` whose last
operand is returned as-is (possibly absent or empty), as in the date
chains of both routes. -/
def resolveAliasOpt : List (Option String) → Option String → Option String
  | [], fb => fb
  | none :: fs, fb => resolveAliasOpt fs fb
  | some s :: fs, fb => if s = "" then resolveAliasOpt fs fb else some s

/-- A CSV row after `csv-parse` with `columns: true`: every value is a
string; `none` models a missing column.  `firstColVal` is the value under
the first column key, `record[Object.keys(record)[0]]`, used as the final
fallback of the date chain. -/
structure CsvRecord where
  date : Option String := none
  Date : Option String := none
  TRANSACTION_DATE : Option String := none
  description : Option String := none
  Description : Option String := none
  NAME : Option String := none
  Merchant : Option String := none
  amount : Option String := none
  Amount : Option String := none
  DEBIT : Option String := none
  CREDIT : Option String := none
  category : Option String := none
  Category : Option String := none
  firstColVal : Option String := none
deriving DecidableEq, Repr

/-- Characters kept by the amount-cleaning regex `[^\d.-]` replacement:
digits, the decimal point, and the minus sign (anywhere). -/
def isAmountChar (c : Char) : Bool :=
  c.isDigit || c == '.' || c == '-'

/-- Numeric value of a list of decimal digit characters. -/
def digitsToNat (ds : List Char) : ℕ :=
  ds.foldl (fun a c => 10 * a + (c.toNat - 48)) 0

/-- The decomposition of a decimal literal prefix: sign, integer-part
digits, fractional-part digits, unconsumed remainder. -/
structure FloatSplit where
  neg : Bool
  ip : List Char
  fp : List Char
  rest : List Char
deriving DecidableEq, Repr

/-- Consumes an optional leading sign; returns whether the sign was a
minus, and the remaining characters. -/
def signSplit : List Char → Bool × List Char
  | '-' :: rest => (true, rest)
  | '+' :: rest => (false, rest)
  | s => (false, s)

/-- Consumes an optional fractional part: after a leading dot, a run of
digits; returns the digit run and the remaining characters. -/
def fracSplit : List Char → List Char × List Char
  | '.' :: rest => rest.span Char.isDigit
  | s => ([], s)

/-- Splits a string into the components of its longest decimal-literal
prefix: optional sign, a run of digits, an optional fractional digit run
after one dot. -/
def parseFloatSplit (s : List Char) : FloatSplit :=
  let sp := signSplit s
  let ipSplit := sp.2.span Char.isDigit
  let fpSplit := fracSplit ipSplit.2
  ⟨sp.1, ipSplit.1, fpSplit.1, fpSplit.2⟩

/-- Prefix parse of a decimal literal, as done by JavaScript `parseFloat`
restricted to inputs without exponents (the cleaned amount strings contain
only digits, dots and minus signs): at least one digit is required,
otherwise the result is `NaN` (`none`).  Returns the value and the
unconsumed remainder of the input. -/
def parseFloatCore (s : List Char) : Option (ℚ × List Char) :=
  let p := parseFloatSplit s
  if p.ip = [] ∧ p.fp = [] then none
  else
    let v : ℚ := (digitsToNat p.ip : ℚ) +
      (digitsToNat p.fp : ℚ) / ((10 : ℚ) ^ p.fp.length)
    some (if p.neg then -v else v, p.rest)

/-- JavaScript `parseFloat` on a cleaned amount string; `none` is `NaN`. -/
def jsParseFloat (s : String) : Option ℚ :=
  (parseFloatCore s.data).map Prod.fst

/-- The amount computation of the upload-csv route:
`parseFloat(v.toString().replace(/[^\d.-]/g, retain)) || 0`. -/
def csvAmount (s : String) : ℚ :=
  (jsParseFloat (String.mk (s.data.filter isAmountChar))).getD 0

/-- The canonical transaction produced by the upload-csv route. -/
structure CsvTransaction where
  date : Option String
  name : String
  amount : ℚ
  category : String
deriving DecidableEq, Repr

/-- The normalization performed per record inside the upload-csv route
(lines 162-169 of the backend):
`date: record.date || record.Date || record.TRANSACTION_DATE || record[Object.keys(record)[0]]`,
`name: record.description || record.Description || record.NAME || record.Merchant || empty`,
`amount: parseFloat((record.amount || record.Amount || record.DEBIT || record.CREDIT || zero).toString().replace(...)) || 0`,
`category: record.category || record.Category || Other`. -/
def csvNormalize (r : CsvRecord) : CsvTransaction where
  date := resolveAliasOpt [r.date, r.Date, r.TRANSACTION_DATE] r.firstColVal
  name := resolveAlias [r.description, r.Description, r.NAME, r.Merchant] ""
  amount := csvAmount (resolveAlias [r.amount, r.Amount, r.DEBIT, r.CREDIT] "0")
  category := resolveAlias [r.category, r.Category] "Other"

/-- A JavaScript category value: a scalar string, an ordered list of
strings, or absent (`undefined`/`null`). -/
inductive CatVal where
  | absent
  | str (s : String)
  | arr (l : List String)
deriving DecidableEq, Repr

/-- JavaScript truthiness of a category value: the empty string and
absent values are falsy; every array (even `[]`) is truthy. -/
def catTruthy : CatVal → Bool
  | .absent => false
  | .str s => decide (s ≠ "")
  | .arr _ => true

/-- The canonical transaction consumed by `computeInsights` (the shape
built by the insights route). -/
structure Transaction where
  date : Option String := none
  name : String := ""
  amount : Option ℚ := none
  category : CatVal := .absent
deriving DecidableEq, Repr

/-- A raw record posted to `/api/insights` (Plaid-shaped or CSV-shaped):
`pfc_primary` models `personal_finance_category?.primary`. -/
structure PlaidRecord where
  date : Option String := none
  datetime : Option String := none
  authorized_date : Option String := none
  amount : Option ℚ := none
  category : CatVal := .absent
  pfc_primary : Option String := none
  name : Option String := none
  merchant_name : Option String := none
deriving DecidableEq, Repr

/-- The per-record normalization of the insights route (lines 216-221):
`date: t.date || t.datetime || t.authorized_date`,
`amount: t.amount` (unchanged),
`category: t.category || t.personal_finance_category?.primary || Other`,
`name: t.name || t.merchant_name || empty`. -/
def normalizeInsights (t : PlaidRecord) : Transaction where
  date := resolveAliasOpt [t.date, t.datetime] t.authorized_date
  amount := t.amount
  category :=
    if catTruthy t.category then t.category
    else CatVal.str (match t.pfc_primary with
      | some p => if p = "" then "Other" else p
      | none => "Other")
  name := resolveAlias [t.name, t.merchant_name] ""

/-- The category label used by `computeInsights` (line 197):
`(t.category && (Array.isArray(t.category) ? t.category[0] : t.category)) || Other`. -/
def resolveCat : CatVal → String
  | .absent => "Other"
  | .str s => if s = "" then "Other" else s
  | .arr l =>
    match l with
    | [] => "Other"
    | h :: _ => if h = "" then "Other" else h

/-- `Number(t.amount) || 0` inside `computeInsights`. -/
def jsAmt (t : Transaction) : ℚ :=
  t.amount.getD 0

/-- `categoryTotals[cat] = (categoryTotals[cat] || 0) + expenseAmount` on an
insertion-ordered string-keyed map. -/
def updateCat : List (String × ℚ) → String → ℚ → List (String × ℚ)
  | [], k, v => [(k, v)]
  | (k1, v1) :: rest, k, v =>
    if k1 = k then (k1, v1 + v) :: rest else (k1, v1) :: updateCat rest k v

/-- The body of the `for` loop of `computeInsights` (lines 185-200): the
accumulator carries `totalThisMonth` and the `categoryTotals` map.  The
`thisMonthStart` and `txDate` values of the source are computed but never
used, so the date field has no effect here. -/
def foldStep (acc : ℚ × List (String × ℚ)) (t : Transaction) : ℚ × List (String × ℚ) :=
  let expenseAmount := |jsAmt t|
  if 0 < expenseAmount then
    (acc.1 + expenseAmount, updateCat acc.2 (resolveCat t.category) expenseAmount)
  else acc

/-- The numeric value of a decimal string, used for the array-index key
test and the numeric ordering of such keys. -/
def strToNat (s : String) : ℕ :=
  digitsToNat s.data

/-- Whether a string is an array-index property key in the ECMAScript
sense: the canonical decimal representation (no leading zero except for
`0` itself, no sign) of an integer below `2 ^ 32 - 1`.  Such keys are
enumerated first, in ascending numeric order, by `Object.entries`. -/
def isArrayIndexKey (s : String) : Bool :=
  !s.isEmpty && s.data.all Char.isDigit &&
    (s == "0" || s.data.head? != some '0') &&
    decide (strToNat s < 2 ^ 32 - 1)

/-- Ascending numeric order on array-index keyed entries. -/
def byIndexAsc (a b : String × ℚ) : Prop :=
  strToNat a.1 ≤ strToNat b.1

instance : DecidableRel byIndexAsc :=
  fun a b => inferInstanceAs (Decidable (strToNat a.1 ≤ strToNat b.1))

/-- `Object.entries` enumeration order on a string-keyed map held in
insertion order: array-index keys first in ascending numeric order, then
the remaining keys in insertion order. -/
def jsObjectEntries (m : List (String × ℚ)) : List (String × ℚ) :=
  List.insertionSort byIndexAsc (m.filter fun p => isArrayIndexKey p.1) ++
    m.filter fun p => !isArrayIndexKey p.1

/-- The ordering imposed by the comparator `(a, b) => b[1] - a[1]`:
descending by total. -/
def byTotalDesc (a b : String × ℚ) : Prop :=
  b.2 ≤ a.2

instance : DecidableRel byTotalDesc :=
  fun a b => inferInstanceAs (Decidable (b.2 ≤ a.2))

instance : IsTotal (String × ℚ) byTotalDesc :=
  ⟨fun a b => le_total b.2 a.2⟩

instance : IsTrans (String × ℚ) byTotalDesc :=
  ⟨fun _ _ _ h1 h2 => le_trans h2 h1⟩

/-- One entry of `topCategories`: `{ name, total }`. -/
structure CategoryEntry where
  name : String
  total : ℚ
deriving DecidableEq, Repr

/-- The value returned by `computeInsights`. -/
structure Insights where
  totalThisMonth : ℚ
  topCategories : List CategoryEntry
deriving DecidableEq, Repr

/-- The helper `computeInsights` (lines 179-209): a fold accumulating the
total and the per-category totals, then
`Object.entries(categoryTotals).sort((a, b) => b[1] - a[1]).slice(0, 5).map(...)`. -/
def computeInsights (transactions : List Transaction) : Insights :=
  let folded := transactions.foldl foldStep (0, [])
  { totalThisMonth := folded.1
    topCategories :=
      ((List.insertionSort byTotalDesc (jsObjectEntries folded.2)).take 5).map
        fun p => CategoryEntry.mk p.1 p.2 }

/-- The `categoryTotals` map built by the fold of `computeInsights`. -/
def categoryTotals (ts : List Transaction) : List (String × ℚ) :=
  (ts.foldl foldStep (0, [])).2

/-- Whether a transaction passes the `expenseAmount > 0` filter. -/
def includedTx (t : Transaction) : Bool :=
  decide (0 < |jsAmt t|)

/-- The request body of `/api/insights` as far as the route inspects it:
either `transactions` is an array of records, or it is absent or not an
array (both rejected by the `Array.isArray` guard). -/
inductive InsightsBody where
  | missingBody
  | notArray
  | txArray (ts : List PlaidRecord)

/-- The `/api/insights` handler (lines 212-228): a non-array
`transactions` value is answered with the 400 error
`transactions[] required`; otherwise the records are normalized and
aggregated. -/
def insightsRoute : InsightsBody → Except String Insights
  | .txArray ts => .ok (computeInsights (ts.map normalizeInsights))
  | _ => .error "transactions[] required"

/-- Modelled from the spec (claim C4 wording, not from the source): strip
every character that is not a digit, a decimal point, or a leading minus
sign, then parse the whole remaining string as a decimal number, any
parse failure yielding 0.  Used only to compare the specified behaviour
with the implemented `csvAmount`. -/
def specParseAmount (s : String) : ℚ :=
  let stripped : List Char :=
    match s.data with
    | '-' :: rest => '-' :: rest.filter (fun c => c.isDigit || c == '.')
    | l => l.filter (fun c => c.isDigit || c == '.')
  match parseFloatCore stripped with
  | some (q, []) => q
  | _ => 0

/-- Replaces a key bound to the empty string (a falsy value) by an absent
key; used to state that falsy alias values are treated as absent. -/
def blankFalsy : Option String → Option String
  | some s => if s = "" then none else some s
  | none => none

/-- Applies `blankFalsy` to every alias field of a CSV record, leaving the
first-column fallback value untouched. -/
def scrubCsv (r : CsvRecord) : CsvRecord where
  date := blankFalsy r.date
  Date := blankFalsy r.Date
  TRANSACTION_DATE := blankFalsy r.TRANSACTION_DATE
  description := blankFalsy r.description
  Description := blankFalsy r.Description
  NAME := blankFalsy r.NAME
  Merchant := blankFalsy r.Merchant
  amount := blankFalsy r.amount
  Amount := blankFalsy r.Amount
  DEBIT := blankFalsy r.DEBIT
  CREDIT := blankFalsy r.CREDIT
  category := blankFalsy r.category
  Category := blankFalsy r.Category
  firstColVal := r.firstColVal

/-- Negates the amount of a transaction (flips an expense into an income
record and vice versa). -/
def negAmount (t : Transaction) : Transaction :=
  { t with amount := t.amount.map fun q => -q }

/-- Sum of the per-category totals of a category map. -/
def valueSum (m : List (String × ℚ)) : ℚ :=
  (m.map Prod.snd).sum

section Helpers

lemma resolveAlias_map_blankFalsy (fs : List (Option String)) (d : String) :
    resolveAlias (fs.map blankFalsy) d = resolveAlias fs d := by
  induction fs with
  | nil => rfl
  | cons f fs ih =>
    cases f with
    | none => simpa [blankFalsy, resolveAlias] using ih
    | some s =>
      by_cases h : s = "" <;> simp [blankFalsy, resolveAlias, h, ih]

lemma resolveAliasOpt_map_blankFalsy (fs : List (Option String)) (fb : Option String) :
    resolveAliasOpt (fs.map blankFalsy) fb = resolveAliasOpt fs fb := by
  induction fs with
  | nil => rfl
  | cons f fs ih =>
    cases f with
    | none => simpa [blankFalsy, resolveAliasOpt] using ih
    | some s =>
      by_cases h : s = "" <;> simp [blankFalsy, resolveAliasOpt, h, ih]

lemma resolveAlias_ne_of_default_ne (fs : List (Option String)) {d : String}
    (hd : d ≠ "") : resolveAlias fs d ≠ "" := by
  induction fs with
  | nil => exact hd
  | cons f fs ih =>
    cases f with
    | none => exact ih
    | some s =>
      by_cases h : s = "" <;> simp [resolveAlias, h, ih]

lemma resolveCat_ne_empty (c : CatVal) : resolveCat c ≠ "" := by
  cases c with
  | absent => simp [resolveCat]
  | str s => by_cases h : s = "" <;> simp [resolveCat, h]
  | arr l =>
    cases l with
    | nil => simp [resolveCat]
    | cons hd tl => by_cases h : hd = "" <;> simp [resolveCat, h]

lemma span_isDigit_eq_nil {m : List Char} (hm : ∀ c ∈ m, c.isDigit = false) :
    m.span Char.isDigit = ([], m) := by
  rw [List.span_eq_take_drop]
  cases m with
  | nil => simp
  | cons c cs =>
    have hc := hm c (List.mem_cons_self c cs)
    simp [List.takeWhile_cons, List.dropWhile_cons, hc]

lemma signSplit_snd_mem (l : List Char) : ∀ c ∈ (signSplit l).2, c ∈ l := by
  intro c hc
  unfold signSplit at hc
  split at hc
  · exact List.mem_cons_of_mem _ hc
  · exact List.mem_cons_of_mem _ hc
  · exact hc

lemma fracSplit_fst_subset (l : List Char) : ∀ c ∈ (fracSplit l).1, c ∈ l := by
  intro c hc
  unfold fracSplit at hc
  split at hc
  · rw [List.span_eq_take_drop] at hc
    exact List.mem_cons_of_mem _ ((List.takeWhile_sublist _).subset hc)
  · simp at hc

lemma fracSplit_fst_digit (l : List Char) : ∀ c ∈ (fracSplit l).1, c.isDigit = true := by
  intro c hc
  unfold fracSplit at hc
  split at hc
  · rw [List.span_eq_take_drop] at hc
    exact List.mem_takeWhile_imp hc
  · simp at hc

lemma parseFloatSplit_of_no_digit {l : List Char} (h : ∀ c ∈ l, c.isDigit = false) :
    (parseFloatSplit l).ip = [] ∧ (parseFloatSplit l).fp = [] := by
  have h1 : ∀ c ∈ (signSplit l).2, c.isDigit = false :=
    fun c hc => h c (signSplit_snd_mem l c hc)
  have hspan := span_isDigit_eq_nil h1
  constructor
  · show ((signSplit l).2.span Char.isDigit).1 = []
    rw [hspan]
  · show (fracSplit ((signSplit l).2.span Char.isDigit).2).1 = []
    rw [hspan]
    rcases hfp : (fracSplit (signSplit l).2).1 with _ | ⟨c, cs⟩
    · rfl
    · exfalso
      have hcmem : c ∈ (fracSplit (signSplit l).2).1 := by
        rw [hfp]
        exact List.mem_cons_self c cs
      have hdig := fracSplit_fst_digit (signSplit l).2 c hcmem
      have hnot := h1 c (fracSplit_fst_subset (signSplit l).2 c hcmem)
      rw [hdig] at hnot
      exact absurd hnot (by simp)

lemma csvAmount_of_no_digit {s : String} (h : ∀ c ∈ s.data, c.isDigit = false) :
    csvAmount s = 0 := by
  have hf : ∀ c ∈ s.data.filter isAmountChar, c.isDigit = false :=
    fun c hc => h c (List.mem_of_mem_filter hc)
  have := parseFloatSplit_of_no_digit hf
  simp [csvAmount, jsParseFloat, parseFloatCore, String.mk, this.1, this.2]

end Helpers


/-- Claim C2 counterexample: on a record carrying both a truthy legacy
`category` value and a structured `personal_finance_category.primary`
label, the insights-route normalization keeps the legacy value; the
structured label does not take precedence. -/
theorem claim2_counterexample :
    (normalizeInsights { category := CatVal.str "LEGACY", pfc_primary := some "FOOD_AND_DRINK" }).category = CatVal.str "LEGACY"
  ∧ (normalizeInsights { category := CatVal.str "LEGACY", pfc_primary := some "FOOD_AND_DRINK" }).category ≠ CatVal.str "FOOD_AND_DRINK" := by
  constructor
  · rfl
  · intro h
    simp [normalizeInsights, catTruthy] at h

/-- Claim C2 amended: when both fields are present, the legacy `category`
field (scalar or array) takes precedence as long as it is truthy; the
structured primary label is consulted only when the legacy field is
absent or falsy. -/
theorem claim2_amended :
    (∀ t : PlaidRecord, ∀ s, t.category = CatVal.str s → s ≠ "" →
      (normalizeInsights t).category = CatVal.str s)
  ∧ (∀ t : PlaidRecord, ∀ l, t.category = CatVal.arr l →
      (normalizeInsights t).category = CatVal.arr l)
  ∧ (∀ t : PlaidRecord, ∀ p, t.category = CatVal.absent → t.pfc_primary = some p →
      p ≠ "" → (normalizeInsights t).category = CatVal.str p) := by
  refine ⟨?_, ?_, ?_⟩
  · intro t s hcat hs
    simp [normalizeInsights, hcat, catTruthy, hs]
  · intro t l hcat
    simp [normalizeInsights, hcat, catTruthy]
  · intro t p hcat hpfc hp
    simp [normalizeInsights, hcat, hpfc, catTruthy, hp]

/-- Claim C2 witness for the amended theorem: a concrete record with a
truthy legacy category and a structured label resolves to the legacy
value. -/
theorem claim2_witness :
    (normalizeInsights { category := CatVal.str "Shops", pfc_primary := some "TRAVEL" }).category = CatVal.str "Shops" :=
  claim2_amended.1 { category := CatVal.str "Shops", pfc_primary := some "TRAVEL" }
    "Shops" rfl (by decide)

/-- Claim C4 counterexample: on the amount string `12-34` the implemented
normalization keeps the interior minus sign and `parseFloat` stops at it,
yielding 12, while the specified pipeline (strip every character that is
not a digit, a dot, or a leading minus, then parse the whole string as a
decimal number) yields 1234. -/
theorem claim4_counterexample :
    (csvNormalize { amount := some "12-34" }).amount = 12
  ∧ specParseAmount "12-34" = 1234
  ∧ (csvNormalize { amount := some "12-34" }).amount ≠ specParseAmount "12-34" := by
  have h : parseFloatSplit ("12-34".data.filter isAmountChar) =
      ⟨false, ['1', '2'], [], "-34".data⟩ := by decide
  have h1 : digitsToNat ['1', '2'] = 12 := by decide
  have h0 : digitsToNat [] = 0 := rfl
  have hcode : (csvNormalize { amount := some "12-34" }).amount = 12 := by
    simp [csvNormalize, resolveAlias, csvAmount, jsParseFloat, parseFloatCore,
      String.mk, h, h1, h0]
  have hspec : specParseAmount "12-34" = 1234 := by
    have h2 : parseFloatSplit ['1', '2', '3', '4'] = ⟨false, ['1', '2', '3', '4'], [], []⟩ := by
      decide
    have h3 : digitsToNat ['1', '2', '3', '4'] = 1234 := by decide
    simp [specParseAmount, parseFloatCore, h2, h3, h0]
  refine ⟨hcode, hspec, ?_⟩
  rw [hcode, hspec]
  norm_num

/-- Claim C4 amended: the amount is resolved from the first truthy alias
among `amount`, `Amount`, `DEBIT`, `CREDIT`; the cleaning step keeps
digits, dots and minus signs anywhere in the string, and `parseFloat`
parses the longest decimal-literal prefix, any parse failure (in
particular a string with no digit at all) yielding 0.  The two worked
examples of the claim hold as stated. -/
theorem claim4_amended :
    (∀ s : String, (∀ c ∈ s.data, c.isDigit = false) → csvAmount s = 0)
  ∧ (csvNormalize { amount := some "$1,234.56" }).amount = 1234.56
  ∧ (csvNormalize { amount := some "N/A" }).amount = 0
  ∧ (csvNormalize { DEBIT := some "5" }).amount = 5
  ∧ (csvNormalize { amount := some "12-34" }).amount = 12 := by
  refine ⟨fun s h => csvAmount_of_no_digit h, ?_, ?_, ?_, ?_⟩
  · have h : parseFloatSplit ("$1,234.56".data.filter isAmountChar) =
        ⟨false, ['1', '2', '3', '4'], ['5', '6'], []⟩ := by decide
    have h1 : digitsToNat ['1', '2', '3', '4'] = 1234 := by decide
    have h2 : digitsToNat ['5', '6'] = 56 := by decide
    simp [csvNormalize, resolveAlias, csvAmount, jsParseFloat, parseFloatCore,
      String.mk, h, h1, h2]
    norm_num
  · have h : parseFloatSplit ("N/A".data.filter isAmountChar) = ⟨false, [], [], []⟩ := by
      decide
    simp [csvNormalize, resolveAlias, csvAmount, jsParseFloat, parseFloatCore,
      String.mk, h]
  · have h : parseFloatSplit ("5".data.filter isAmountChar) = ⟨false, ['5'], [], []⟩ := by
      decide
    have h1 : digitsToNat ['5'] = 5 := by decide
    have h0 : digitsToNat [] = 0 := rfl
    simp [csvNormalize, resolveAlias, csvAmount, jsParseFloat, parseFloatCore,
      String.mk, h, h1, h0]
  · have h : parseFloatSplit ("12-34".data.filter isAmountChar) =
        ⟨false, ['1', '2'], [], "-34".data⟩ := by decide
    have h1 : digitsToNat ['1', '2'] = 12 := by decide
    have h0 : digitsToNat [] = 0 := rfl
    simp [csvNormalize, resolveAlias, csvAmount, jsParseFloat, parseFloatCore,
      String.mk, h, h1, h0]

/-- Claim C4 witness for the amended theorem: a digitless amount string
parses to 0. -/
theorem claim4_witness : csvAmount "ABC" = 0 :=
  claim4_amended.1 "ABC" (by decide)

/-- Claim C5 counterexample: the insights-route normalization of a record
whose category is an ordered list keeps the whole list in the category
field; it does not replace it by the first element. -/
theorem claim5_counterexample :
    (normalizeInsights { category := CatVal.arr ["FOOD_AND_DRINK", "RESTAURANTS"] }).category = CatVal.arr ["FOOD_AND_DRINK", "RESTAURANTS"]
  ∧ (normalizeInsights { category := CatVal.arr ["FOOD_AND_DRINK", "RESTAURANTS"] }).category ≠ CatVal.str "FOOD_AND_DRINK" := by
  constructor
  · rfl
  · intro h
    simp [normalizeInsights, catTruthy] at h

/-- Claim C5 amended: the normalization stage passes a list-valued
category through unchanged; the first (most general) element is selected
later, by the aggregation stage (`computeInsights`, line 197), provided
it is a nonempty string; an absent category is normalized to the literal
`Other` already at normalization time. -/
theorem claim5_amended :
    (∀ t : PlaidRecord, ∀ hd rest, t.category = CatVal.arr (hd :: rest) → hd ≠ "" →
      resolveCat (normalizeInsights t).category = hd)
  ∧ (∀ t : PlaidRecord, t.category = CatVal.absent → t.pfc_primary = none →
      (normalizeInsights t).category = CatVal.str "Other")
  ∧ resolveCat (normalizeInsights { category := CatVal.arr ["FOOD_AND_DRINK", "RESTAURANTS"] }).category = "FOOD_AND_DRINK" := by
  refine ⟨?_, ?_, ?_⟩
  · intro t hd rest hcat hhd
    simp [normalizeInsights, hcat, catTruthy, resolveCat, hhd]
  · intro t hcat hpfc
    simp [normalizeInsights, hcat, hpfc, catTruthy]
  · rfl

/-- Claim C5 witness for the amended theorem: a concrete list-valued
category aggregates under its first element. -/
theorem claim5_witness :
    resolveCat (normalizeInsights { category := CatVal.arr ["TRAVEL", "AIRLINES"] }).category = "TRAVEL" :=
  claim5_amended.1 { category := CatVal.arr ["TRAVEL", "AIRLINES"] } "TRAVEL" ["AIRLINES"] rfl (by decide)

/-- Claim C6 counterexample: the insights-route normalization of the
empty mapping leaves the amount field absent (`undefined` in the source),
not a finite number; the claim that `normalize` always returns a finite
`amount` fails on this route. -/
theorem claim6_counterexample : (normalizeInsights {}).amount = none := rfl

/-- The category field produced by the insights-route normalization, in
closed form. -/
lemma normalizeInsights_category (t : PlaidRecord) :
    (normalizeInsights t).category =
      if catTruthy t.category then t.category
      else CatVal.str (match t.pfc_primary with
        | some p => if p = "" then "Other" else p
        | none => "Other") := rfl

lemma normalizeInsights_cat_ne_absent (t : PlaidRecord) :
    (normalizeInsights t).category ≠ CatVal.absent := by
  rw [normalizeInsights_category]
  split
  · rename_i h
    intro hEq
    rw [hEq] at h
    simp [catTruthy] at h
  · exact fun hEq => CatVal.noConfusion hEq

lemma normalizeInsights_cat_str_ne_empty (t : PlaidRecord) (s : String)
    (hEq : (normalizeInsights t).category = CatVal.str s) : s ≠ "" := by
  rw [normalizeInsights_category] at hEq
  by_cases h : catTruthy t.category = true
  · rw [if_pos h] at hEq
    rw [hEq] at h
    simpa [catTruthy] using h
  · rw [if_neg h] at hEq
    injection hEq with hX
    rcases hp : t.pfc_primary with _ | p
    · rw [hp] at hX
      simp at hX
      simp [← hX]
    · rw [hp] at hX
      have hX2 : (if p = "" then "Other" else p) = s := hX
      by_cases hpe : p = ""
      · rw [if_pos hpe] at hX2
        simp [← hX2]
      · rw [if_neg hpe] at hX2
        rw [← hX2]
        exact hpe

/-- Claim C6 amended: the upload-csv normalization always yields a
defaulted finite amount and a nonempty category string; the insights
normalization passes the amount through unchanged (an absent amount stays
absent and is coerced to 0 only inside the aggregation), never leaves the
category absent, never produces an empty category string, and the label
under which aggregation occurs is always nonempty. -/
theorem claim6_amended :
    (∀ r : CsvRecord, (csvNormalize r).category ≠ "")
  ∧ (csvNormalize {}).amount = 0
  ∧ (csvNormalize {}).category = "Other"
  ∧ (csvNormalize {}).name = ""
  ∧ (∀ t : PlaidRecord, (normalizeInsights t).category ≠ CatVal.absent)
  ∧ (∀ t : PlaidRecord, ∀ s, (normalizeInsights t).category = CatVal.str s → s ≠ "")
  ∧ (∀ t : PlaidRecord, resolveCat (normalizeInsights t).category ≠ "")
  ∧ (∀ t : PlaidRecord, t.amount = none → jsAmt (normalizeInsights t) = 0) := by
  refine ⟨?_, ?_, rfl, rfl, ?_, ?_, ?_, ?_⟩
  · intro r
    exact resolveAlias_ne_of_default_ne _ (by decide)
  · have h : parseFloatSplit ("0".data.filter isAmountChar) = ⟨false, ['0'], [], []⟩ := by
      decide
    have h1 : digitsToNat ['0'] = 0 := rfl
    have h0 : digitsToNat [] = 0 := rfl
    simp [csvNormalize, resolveAlias, csvAmount, jsParseFloat, parseFloatCore,
      String.mk, h, h1, h0]
  · exact normalizeInsights_cat_ne_absent
  · exact normalizeInsights_cat_str_ne_empty
  · intro t
    exact resolveCat_ne_empty _
  · intro t ha
    simp [jsAmt, normalizeInsights, ha]

/-- Claim C6 witness for the amended theorem: the empty mapping has an
absent amount which the aggregation coerces to 0. -/
theorem claim6_witness : jsAmt (normalizeInsights {}) = 0 :=
  claim6_amended.2.2.2.2.2.2.2 {} rfl

/-- Claim C7: the insights route returns the computed insights for every
array body (`computeInsights` is a total function, so it never fails on a
well-formed sequence) and answers every non-array `transactions` value
with the `transactions[] required` rejection; in the embedding both
outcomes are values of a pure function, hence deterministic and free of
state changes. -/
theorem claim7_insights_route :
    (∀ ts, insightsRoute (.txArray ts) = .ok (computeInsights (ts.map normalizeInsights)))
  ∧ (∀ b, (∀ ts, b ≠ .txArray ts) → insightsRoute b = .error "transactions[] required")
  ∧ (∀ b, (∃ i, insightsRoute b = .ok i) ↔ ∃ ts, b = .txArray ts) := by
  refine ⟨fun _ => rfl, ?_, ?_⟩
  · intro b hb
    cases b with
    | missingBody => rfl
    | notArray => rfl
    | txArray ts => exact absurd rfl (hb ts)
  · intro b
    cases b <;> simp [insightsRoute]

/-- Claim C7 witness: a body whose `transactions` member is not an array
is rejected with the 400 error payload. -/
theorem claim7_witness :
    insightsRoute InsightsBody.notArray = .error "transactions[] required" :=
  claim7_insights_route.2.1 InsightsBody.notArray fun _ h => InsightsBody.noConfusion h

/-- Claim C10: an alias key bound to a falsy value is interchangeable
with an absent key throughout both normalizations (scrubbing every falsy
CSV alias value to an absent key changes nothing, and an empty-string
category behaves like an absent one on the insights route), and the three
worked examples hold: an empty `amount` falls through to `DEBIT`, an
empty `category` defaults to `Other`, and all-empty name aliases default
to the empty name.  In the CSV model every value is a string, so the
falsy values 0, null and NaN of the claim are represented by the absent
case itself. -/
theorem claim10_falsy_is_absent :
    (∀ r : CsvRecord, csvNormalize (scrubCsv r) = csvNormalize r)
  ∧ (∀ t : PlaidRecord,
      normalizeInsights { t with category := CatVal.str "" } =
        normalizeInsights { t with category := CatVal.absent })
  ∧ (csvNormalize { amount := some "", DEBIT := some "5.00" }).amount = 5
  ∧ (csvNormalize { category := some "" }).category = "Other"
  ∧ (csvNormalize { description := some "", Description := some "", NAME := some "", Merchant := some "" }).name = "" := by
  refine ⟨?_, ?_, ?_, rfl, rfl⟩
  · intro r
    simp only [csvNormalize, scrubCsv, CsvTransaction.mk.injEq]
    refine ⟨?_, ?_, ?_, ?_⟩
    · exact resolveAliasOpt_map_blankFalsy [r.date, r.Date, r.TRANSACTION_DATE] r.firstColVal
    · exact resolveAlias_map_blankFalsy [r.description, r.Description, r.NAME, r.Merchant] ""
    · exact congrArg csvAmount
        (resolveAlias_map_blankFalsy [r.amount, r.Amount, r.DEBIT, r.CREDIT] "0")
    · exact resolveAlias_map_blankFalsy [r.category, r.Category] "Other"
  · intro t
    simp [normalizeInsights, catTruthy]
  · have h : parseFloatSplit ("5.00".data.filter isAmountChar) =
        ⟨false, ['5'], ['0', '0'], []⟩ := by decide
    have h1 : digitsToNat ['5'] = 5 := by decide
    have h0 : digitsToNat ['0', '0'] = 0 := rfl
    simp [csvNormalize, resolveAlias, csvAmount, jsParseFloat, parseFloatCore,
      String.mk, h, h1, h0]


section AggregationLemmas

lemma foldStep_fst (acc : ℚ × List (String × ℚ)) (t : Transaction) :
    (foldStep acc t).1 = acc.1 + |jsAmt t| := by
  by_cases h : 0 < |jsAmt t|
  · simp [foldStep, h]
  · have h0 : |jsAmt t| = 0 := le_antisymm (not_lt.mp h) (abs_nonneg _)
    simp [foldStep, h, h0]

lemma foldStep_of_not_included (acc : ℚ × List (String × ℚ)) (t : Transaction)
    (h : ¬ 0 < |jsAmt t|) : foldStep acc t = acc := by
  simp [foldStep, h]

lemma foldl_fst (ts : List Transaction) :
    ∀ acc, (ts.foldl foldStep acc).1 = acc.1 + (ts.map fun t => |jsAmt t|).sum := by
  induction ts with
  | nil => intro acc; simp
  | cons t ts ih =>
    intro acc
    rw [List.foldl_cons, ih, foldStep_fst]
    simp
    ring

lemma foldl_filter_included (ts : List Transaction) :
    ∀ acc, (ts.filter includedTx).foldl foldStep acc = ts.foldl foldStep acc := by
  induction ts with
  | nil => intro acc; rfl
  | cons t ts ih =>
    intro acc
    by_cases h : includedTx t
    · rw [List.filter_cons_of_pos h, List.foldl_cons, List.foldl_cons, ih]
    · have h2 : ¬ 0 < |jsAmt t| := by simpa [includedTx] using h
      rw [List.filter_cons_of_neg h, List.foldl_cons, foldStep_of_not_included acc t h2, ih]

lemma foldStep_date (acc : ℚ × List (String × ℚ)) (t : Transaction) (d : Option String) :
    foldStep acc { t with date := d } = foldStep acc t := rfl

lemma foldl_map_date (ts : List Transaction) (f : Transaction → Option String) :
    ∀ acc, (ts.map fun t => { t with date := f t }).foldl foldStep acc =
      ts.foldl foldStep acc := by
  induction ts with
  | nil => intro acc; rfl
  | cons t ts ih =>
    intro acc
    rw [List.map_cons, List.foldl_cons, List.foldl_cons, foldStep_date, ih]

lemma foldStep_negAmount (acc : ℚ × List (String × ℚ)) (t : Transaction) :
    foldStep acc (negAmount t) = foldStep acc t := by
  have h1 : |jsAmt (negAmount t)| = |jsAmt t| := by
    rcases ha : t.amount with _ | q
    · simp [jsAmt, negAmount, ha]
    · simp [jsAmt, negAmount, ha]
  have h2 : (negAmount t).category = t.category := rfl
  unfold foldStep
  rw [h1, h2]

lemma foldl_set_congr (ts : List Transaction) :
    ∀ (i : ℕ) (x y : Transaction) (acc), ts[i]? = some x →
      (∀ a, foldStep a y = foldStep a x) →
      (ts.set i y).foldl foldStep acc = ts.foldl foldStep acc := by
  induction ts with
  | nil =>
    intro i x y acc hget
    simp at hget
  | cons t ts ih =>
    intro i x y acc hget hstep
    cases i with
    | zero =>
      simp at hget
      rw [List.set_cons_zero, List.foldl_cons, List.foldl_cons, hget, hstep]
    | succ n =>
      rw [List.set_cons_succ, List.foldl_cons, List.foldl_cons]
      exact ih n x y _ (by simpa using hget) hstep

lemma valueSum_cons (p : String × ℚ) (m : List (String × ℚ)) :
    valueSum (p :: m) = p.2 + valueSum m := by
  simp [valueSum]

lemma valueSum_updateCat (m : List (String × ℚ)) (k : String) (v : ℚ) :
    valueSum (updateCat m k v) = valueSum m + v := by
  induction m with
  | nil => simp [updateCat, valueSum]
  | cons p rest ih =>
    obtain ⟨k1, v1⟩ := p
    by_cases h : k1 = k
    · simp [updateCat, h, valueSum_cons]
      ring
    · rw [show updateCat ((k1, v1) :: rest) k v = (k1, v1) :: updateCat rest k v from by
        simp [updateCat, h]]
      rw [valueSum_cons, valueSum_cons, ih]
      ring

lemma foldl_fst_valueSum (ts : List Transaction) :
    ∀ acc, (ts.foldl foldStep acc).1 + valueSum acc.2 =
      valueSum (ts.foldl foldStep acc).2 + acc.1 := by
  induction ts with
  | nil =>
    intro acc
    rw [List.foldl_nil]
    ring
  | cons t ts ih =>
    intro acc
    rw [List.foldl_cons]
    have hstep := ih (foldStep acc t)
    by_cases h : 0 < |jsAmt t|
    · have h1 : (foldStep acc t).1 = acc.1 + |jsAmt t| := foldStep_fst acc t
      have h2 : valueSum (foldStep acc t).2 = valueSum acc.2 + |jsAmt t| := by
        simp [foldStep, h, valueSum_updateCat]
      rw [h1, h2] at hstep
      linarith
    · rw [foldStep_of_not_included acc t h]
      exact ih acc

lemma updateCat_pos (k : String) (v : ℚ) (hv : 0 < v) :
    ∀ (m : List (String × ℚ)), (∀ p ∈ m, 0 < p.2) → ∀ p ∈ updateCat m k v, 0 < p.2 := by
  intro m
  induction m with
  | nil =>
    intro _ p hp
    simp [updateCat] at hp
    rw [hp]
    exact hv
  | cons q rest ih =>
    obtain ⟨k1, v1⟩ := q
    intro hm p hp
    by_cases h : k1 = k
    · simp [updateCat, h] at hp
      rcases hp with hp | hp
      · have hv1 : 0 < v1 := hm (k1, v1) (List.mem_cons_self _ _)
        rw [hp]
        exact add_pos hv1 hv
      · exact hm p (List.mem_cons_of_mem _ hp)
    · simp [updateCat, h] at hp
      rcases hp with hp | hp
      · exact hm p (by simp [hp])
      · exact ih (fun q hq => hm q (List.mem_cons_of_mem _ hq)) p hp

lemma foldl_pos (ts : List Transaction) :
    ∀ acc, (∀ p ∈ acc.2, 0 < p.2) → ∀ p ∈ (ts.foldl foldStep acc).2, 0 < p.2 := by
  induction ts with
  | nil => intro acc h; exact h
  | cons t ts ih =>
    intro acc h
    rw [List.foldl_cons]
    apply ih
    by_cases hin : 0 < |jsAmt t|
    · have : (foldStep acc t).2 = updateCat acc.2 (resolveCat t.category) |jsAmt t| := by
        simp [foldStep, hin]
      rw [this]
      exact updateCat_pos _ _ hin acc.2 h
    · rw [foldStep_of_not_included acc t hin]
      exact h

lemma updateCat_keys (m : List (String × ℚ)) (k : String) (v : ℚ) :
    (updateCat m k v).map Prod.fst =
      if k ∈ m.map Prod.fst then m.map Prod.fst else m.map Prod.fst ++ [k] := by
  induction m with
  | nil => simp [updateCat]
  | cons p rest ih =>
    obtain ⟨k1, v1⟩ := p
    by_cases h : k1 = k
    · subst h
      simp [updateCat]
    · rw [show updateCat ((k1, v1) :: rest) k v = (k1, v1) :: updateCat rest k v from by
        simp [updateCat, h]]
      rw [List.map_cons, ih, List.map_cons]
      by_cases h2 : k ∈ rest.map Prod.fst
      · rw [if_pos h2, if_pos (by simp [h2])]
      · rw [if_neg h2, if_neg (by simp [h2, Ne.symm h])]
        simp

lemma updateCat_keys_nodup (m : List (String × ℚ)) (k : String) (v : ℚ)
    (h : (m.map Prod.fst).Nodup) : ((updateCat m k v).map Prod.fst).Nodup := by
  rw [updateCat_keys]
  split
  · exact h
  · rename_i hk
    rw [List.nodup_append]
    exact ⟨h, List.nodup_singleton k, by simpa using hk⟩

lemma updateCat_keys_toFinset (m : List (String × ℚ)) (k : String) (v : ℚ) :
    ((updateCat m k v).map Prod.fst).toFinset =
      insert k (m.map Prod.fst).toFinset := by
  rw [updateCat_keys]
  split
  · rename_i hk
    exact (Finset.insert_eq_self.mpr (List.mem_toFinset.mpr hk)).symm
  · ext a
    simp [or_comm]

lemma foldl_keys_nodup (ts : List Transaction) :
    ∀ acc, (acc.2.map Prod.fst).Nodup →
      (((ts.foldl foldStep acc).2.map Prod.fst)).Nodup := by
  induction ts with
  | nil => intro acc h; exact h
  | cons t ts ih =>
    intro acc h
    rw [List.foldl_cons]
    apply ih
    by_cases hin : 0 < |jsAmt t|
    · have heq : (foldStep acc t).2 = updateCat acc.2 (resolveCat t.category) |jsAmt t| := by
        simp [foldStep, hin]
      rw [heq]
      exact updateCat_keys_nodup _ _ _ h
    · rw [foldStep_of_not_included acc t hin]
      exact h

lemma foldl_keys_toFinset (ts : List Transaction) :
    ∀ acc, ((ts.foldl foldStep acc).2.map Prod.fst).toFinset =
      (acc.2.map Prod.fst).toFinset ∪
        ((ts.filter includedTx).map fun t => resolveCat t.category).toFinset := by
  induction ts with
  | nil => intro acc; simp
  | cons t ts ih =>
    intro acc
    rw [List.foldl_cons]
    by_cases h : includedTx t = true
    · have hlt : 0 < |jsAmt t| := by simpa [includedTx] using h
      have heq : (foldStep acc t).2 = updateCat acc.2 (resolveCat t.category) |jsAmt t| := by
        simp [foldStep, hlt]
      rw [ih, heq, updateCat_keys_toFinset, List.filter_cons_of_pos h, List.map_cons,
        List.toFinset_cons]
      ext a
      simp
    · have hnlt : ¬ 0 < |jsAmt t| := by simpa [includedTx] using h
      rw [ih, foldStep_of_not_included acc t hnlt, List.filter_cons_of_neg h]

lemma categoryTotals_length (ts : List Transaction) :
    (categoryTotals ts).length =
      (((ts.filter includedTx).map fun t => resolveCat t.category)).toFinset.card := by
  have hnodup : (((categoryTotals ts).map Prod.fst)).Nodup :=
    foldl_keys_nodup ts (0, []) (by simp)
  have hfin := foldl_keys_toFinset ts (0, [])
  have h1 : (categoryTotals ts).length = ((categoryTotals ts).map Prod.fst).length := by simp
  rw [h1, ← List.toFinset_card_of_nodup hnodup]
  show (((ts.foldl foldStep (0, [])).2.map Prod.fst)).toFinset.card = _
  rw [hfin]
  simp

lemma jsObjectEntries_perm (m : List (String × ℚ)) : List.Perm (jsObjectEntries m) m := by
  unfold jsObjectEntries
  refine ((List.perm_insertionSort byIndexAsc _).append_right _).trans ?_
  exact List.filter_append_perm _ m

lemma sortedEntries_perm (m : List (String × ℚ)) :
    List.Perm (List.insertionSort byTotalDesc (jsObjectEntries m)) m :=
  (List.perm_insertionSort _ _).trans (jsObjectEntries_perm m)

end AggregationLemmas

/-- Claim C1: every transaction of the batch is counted through its
magnitude only — `totalThisMonth` is the sum of `abs(amount)` over the
whole batch (zero-magnitude transactions contribute nothing, matching the
`magnitude > 0` filter), dropping the zero-magnitude transactions changes
nothing at all, and the result is completely independent of the date
fields, with no calendar-month restriction. -/
theorem claim1_magnitude_filter (ts : List Transaction) :
    (computeInsights ts).totalThisMonth = (ts.map fun t => |jsAmt t|).sum
  ∧ computeInsights (ts.filter includedTx) = computeInsights ts
  ∧ ∀ f : Transaction → Option String,
      computeInsights (ts.map fun t => { t with date := f t }) = computeInsights ts := by
  refine ⟨?_, ?_, ?_⟩
  · show (ts.foldl foldStep (0, [])).1 = _
    rw [foldl_fst]
    simp
  · unfold computeInsights
    rw [foldl_filter_included]
  · intro f
    unfold computeInsights
    rw [foldl_map_date]

/-- Claim C8: `computeInsights` is invariant under negating the amount of
any one transaction of the batch, and the empty batch yields zero total
and no categories. -/
theorem claim8_sign_invariance :
    computeInsights [] = { totalThisMonth := 0, topCategories := [] }
  ∧ ∀ (ts : List Transaction) (i : ℕ) (t : Transaction), ts[i]? = some t →
      computeInsights (ts.set i (negAmount t)) = computeInsights ts := by
  constructor
  · rfl
  · intro ts i t hget
    unfold computeInsights
    rw [foldl_set_congr ts i t (negAmount t) (0, []) hget fun a => foldStep_negAmount a t]

/-- Claim C8 witness: negating a single amount of minus 50 to plus 50
leaves the insights unchanged. -/
theorem claim8_witness :
    computeInsights [{ name := "Cafe", amount := some 50, category := CatVal.str "FOOD_AND_DRINK" }] =
      computeInsights [{ name := "Cafe", amount := some (-50), category := CatVal.str "FOOD_AND_DRINK" }] := by
  have h := claim8_sign_invariance.2
    [{ name := "Cafe", amount := some (-50), category := CatVal.str "FOOD_AND_DRINK" }] 0
    { name := "Cafe", amount := some (-50), category := CatVal.str "FOOD_AND_DRINK" } rfl
  have hset : ([{ name := "Cafe", amount := some (-50), category := CatVal.str "FOOD_AND_DRINK" }].set 0
      (negAmount { name := "Cafe", amount := some (-50), category := CatVal.str "FOOD_AND_DRINK" })) =
      [{ name := "Cafe", amount := some 50, category := CatVal.str "FOOD_AND_DRINK" }] := by
    simp [negAmount]
  rw [hset] at h
  exact h

/-- Claim C9: `totalThisMonth` equals the sum of the accumulated totals
over all distinct categories, every listed entry has strictly positive
total, the `topCategories` sum never exceeds `totalThisMonth`, the number
of accumulated categories is the number of distinct labels of included
transactions, and the sums agree exactly when at most 5 distinct labels
occur. -/
theorem claim9_conservation (ts : List Transaction) :
    (computeInsights ts).totalThisMonth = valueSum (categoryTotals ts)
  ∧ ((computeInsights ts).topCategories.map CategoryEntry.total).sum ≤
      (computeInsights ts).totalThisMonth
  ∧ (∀ e ∈ (computeInsights ts).topCategories, 0 < e.total)
  ∧ (categoryTotals ts).length =
      (((ts.filter includedTx).map fun t => resolveCat t.category)).toFinset.card
  ∧ ((((ts.filter includedTx).map fun t => resolveCat t.category)).toFinset.card ≤ 5 →
      ((computeInsights ts).topCategories.map CategoryEntry.total).sum =
        (computeInsights ts).totalThisMonth) := by
  have htotal : (computeInsights ts).totalThisMonth = valueSum (categoryTotals ts) := by
    have h := foldl_fst_valueSum ts (0, [])
    show (ts.foldl foldStep (0, [])).1 = _
    simpa [valueSum] using h
  have htop : (computeInsights ts).topCategories =
      ((List.insertionSort byTotalDesc (jsObjectEntries (categoryTotals ts))).take 5).map
        (fun p => CategoryEntry.mk p.1 p.2) := rfl
  have hperm := sortedEntries_perm (categoryTotals ts)
  have hpos : ∀ p ∈ List.insertionSort byTotalDesc (jsObjectEntries (categoryTotals ts)),
      0 < p.2 := by
    intro p hp
    exact foldl_pos ts (0, []) (by simp) p (hperm.mem_iff.mp hp)
  have hsummap : ((computeInsights ts).topCategories.map CategoryEntry.total) =
      ((List.insertionSort byTotalDesc (jsObjectEntries (categoryTotals ts))).map
        Prod.snd).take 5 := by
    rw [htop, List.map_map, ← List.map_take]
    rfl
  have hsumall : ((List.insertionSort byTotalDesc (jsObjectEntries (categoryTotals ts))).map
      Prod.snd).sum = valueSum (categoryTotals ts) := by
    exact List.Perm.sum_eq (hperm.map Prod.snd)
  have hle : ((computeInsights ts).topCategories.map CategoryEntry.total).sum ≤
      (computeInsights ts).totalThisMonth := by
    rw [hsummap, htotal, ← hsumall]
    have hsplit := List.sum_take_add_sum_drop
      ((List.insertionSort byTotalDesc (jsObjectEntries (categoryTotals ts))).map Prod.snd) 5
    have hdrop : 0 ≤ (((List.insertionSort byTotalDesc
        (jsObjectEntries (categoryTotals ts))).map Prod.snd).drop 5).sum := by
      apply List.sum_nonneg
      intro x hx
      have hx2 : x ∈ (List.insertionSort byTotalDesc
          (jsObjectEntries (categoryTotals ts))).map Prod.snd :=
        (List.drop_sublist _ _).subset hx
      rcases List.mem_map.mp hx2 with ⟨p, hp, rfl⟩
      exact le_of_lt (hpos p hp)
    linarith
  refine ⟨htotal, hle, ?_, categoryTotals_length ts, ?_⟩
  · intro e he
    rw [htop] at he
    rcases List.mem_map.mp he with ⟨p, hp, rfl⟩
    exact hpos p ((List.take_sublist _ _).subset hp)
  · intro hcard
    have hlen : (categoryTotals ts).length ≤ 5 := by
      rw [categoryTotals_length ts]
      exact hcard
    have hlens : (List.insertionSort byTotalDesc
        (jsObjectEntries (categoryTotals ts))).length ≤ 5 := by
      rw [hperm.length_eq]
      exact hlen
    have htake : ((List.insertionSort byTotalDesc (jsObjectEntries (categoryTotals ts))).map
        Prod.snd).take 5 = (List.insertionSort byTotalDesc
          (jsObjectEntries (categoryTotals ts))).map Prod.snd := by
      apply List.take_of_length_le
      simpa using hlens
    rw [hsummap, htake, hsumall, htotal]

/-- Claim C9 witness: on a one-category batch the `topCategories` sum
equals the total. -/
theorem claim9_witness :
    ((computeInsights [{ amount := some 5, category := CatVal.str "A" }]).topCategories.map
      CategoryEntry.total).sum =
      (computeInsights [{ amount := some 5, category := CatVal.str "A" }]).totalThisMonth :=
  (claim9_conservation _).2.2.2.2 (by decide)

/-- Claim C3 counterexample: with categories first encountered in the
order `A`, `2` and tied totals, `Object.entries` enumerates the
array-index-like key `2` first, so the tie is NOT broken by
first-encountered order: the computed ranking is `2`, `A`. -/
theorem claim3_counterexample :
    (computeInsights [{ amount := some 5, category := CatVal.str "A" },
      { amount := some 5, category := CatVal.str "2" }]).topCategories =
        [⟨"2", 5⟩, ⟨"A", 5⟩]
  ∧ (computeInsights [{ amount := some 5, category := CatVal.str "A" },
      { amount := some 5, category := CatVal.str "2" }]).topCategories ≠
        [⟨"A", 5⟩, ⟨"2", 5⟩] := by
  constructor
  · rfl
  · intro h
    rw [show (computeInsights [{ amount := some 5, category := CatVal.str "A" },
      { amount := some 5, category := CatVal.str "2" }]).topCategories =
        [⟨"2", 5⟩, ⟨"A", 5⟩] from rfl] at h
    simp at h

/-- Claim C3 amended: `topCategories` is the first 5 entries of the
stable descending-by-total sort of the accumulated category map taken in
`Object.entries` enumeration order; its length never exceeds 5, it is
sorted non-increasing by total, ties keep the enumeration order of the
map (which is first-encountered order exactly when no category label is a
canonical array-index string; such labels are enumerated first in
ascending numeric order). -/
theorem claim3_ranking (ts : List Transaction) :
    (computeInsights ts).topCategories =
      ((List.insertionSort byTotalDesc (jsObjectEntries (categoryTotals ts))).take 5).map
        (fun p => CategoryEntry.mk p.1 p.2)
  ∧ (computeInsights ts).topCategories.length ≤ 5
  ∧ (computeInsights ts).topCategories.Pairwise (fun a b => b.total ≤ a.total)
  ∧ (∀ a b : String × ℚ, a.2 = b.2 →
      List.Sublist [a, b] (jsObjectEntries (categoryTotals ts)) →
      List.Sublist [a, b]
        (List.insertionSort byTotalDesc (jsObjectEntries (categoryTotals ts))))
  ∧ ((∀ p ∈ categoryTotals ts, isArrayIndexKey p.1 = false) →
      jsObjectEntries (categoryTotals ts) = categoryTotals ts) := by
  refine ⟨rfl, ?_, ?_, ?_, ?_⟩
  · show (((List.insertionSort byTotalDesc (jsObjectEntries (categoryTotals ts))).take 5).map
      (fun p => CategoryEntry.mk p.1 p.2)).length ≤ 5
    rw [List.length_map, List.length_take]
    exact min_le_left _ _
  · have hsorted : (List.insertionSort byTotalDesc
        (jsObjectEntries (categoryTotals ts))).Pairwise byTotalDesc :=
      List.sorted_insertionSort byTotalDesc _
    have htake := hsorted.sublist (List.take_sublist 5 _)
    show (((List.insertionSort byTotalDesc (jsObjectEntries (categoryTotals ts))).take 5).map
      (fun p => CategoryEntry.mk p.1 p.2)).Pairwise _
    exact List.pairwise_map.mpr htake
  · intro a b heq hsub
    exact List.pair_sublist_insertionSort (le_of_eq heq.symm) hsub
  · intro h
    unfold jsObjectEntries
    have h1 : (categoryTotals ts).filter (fun p => isArrayIndexKey p.1) = [] :=
      List.filter_eq_nil_iff.mpr fun p hp => by simp [h p hp]
    have h2 : (categoryTotals ts).filter (fun p => !isArrayIndexKey p.1) = categoryTotals ts :=
      List.filter_eq_self.mpr fun p hp => by simp [h p hp]
    rw [h1, h2]
    rfl

/-- Claim C3 witness: on a batch without array-index category labels the
enumeration order is the first-encountered order. -/
theorem claim3_witness :
    jsObjectEntries (categoryTotals [{ amount := some 5, category := CatVal.str "A" }]) =
      categoryTotals [{ amount := some 5, category := CatVal.str "A" }] :=
  (claim3_ranking _).2.2.2.2 (by decide)

end SmartSpend
